import Mathlib

/-!
Verification of the scan/clean core of macOS-Junk-Cleaner (clean.py).

The Python source is shallowly embedded: the filesystem is an explicit tree
value, OS calls that may raise OSError/PermissionError are modelled as Option
results (none = the call raised), the scan thread's event queue is the list of
events it puts, and the cooperative cancellation event is a function from the
number of is_set() calls made so far to the answer of that call.  Machine
floats only ever hold values of the form n / 1024^k here (n a byte count well
below 2^53), which are exact in IEEE double precision, so they are modelled by
the exact pair (n, 1024^k).
-/

/-! ## Matcher (clean.py lines 31-40 and 84-85, rule set lines 118-122) -/

/-- An entry of junk_files['names']: a plain string (compared with ==) or a
compiled regex object (its .match method, anchored at the start). The regex
is kept abstract as its acceptance function. -/
inductive Pattern where
  | exact (s : String)
  | matcher (f : String → Bool)

/-- Whether one entry of the names list accepts the filename: the isinstance
str branch compares for equality, the hasattr 'match' branch calls
pattern.match(filename) (truthy iff the regex matches at the start). -/
def patternAccepts (p : Pattern) (filename : String) : Bool :=
  match p with
  | .exact s => s == filename
  | .matcher f => f filename

/-- matches_patterns (clean.py 31-40): return True on the first pattern that
accepts the filename, False when the loop falls through. -/
def matches_patterns (filename : String) : List Pattern → Bool
  | [] => false
  | p :: rest => patternAccepts p filename || matches_patterns filename rest

/-- The junk rule set (clean.py 118-122). -/
structure JunkRules where
  names : List Pattern
  extensions : List String
  folders : List String

/-- Index of the last '.' in a list of characters, if any. -/
def lastDotIdx : List Char → Option Nat
  | [] => none
  | c :: cs =>
    match lastDotIdx cs with
    | some i => some (i + 1)
    | none => if c == '.' then some 0 else none

/-- Whether some character strictly before the last '.' is not itself a '.'.
posixpath.splitext only recognises an extension in that case: leading dots of
a base name (hidden files such as .DS_Store or .log) never open an extension. -/
def hasStem (name : String) : Bool :=
  match lastDotIdx name.data with
  | none => false
  | some d => (name.data.take d).any (fun c => c != '.')

/-- os.path.splitext(name)[1] for a base name (no path separator in it):
the substring from the last '.' on, provided a non-dot character stands
somewhere before that dot; otherwise the empty string. -/
def splitext_ext (name : String) : String :=
  match lastDotIdx name.data with
  | none => ""
  | some d => if (name.data.take d).any (fun c => c != '.') then ⟨name.data.drop d⟩ else ""

/-- Modelled from the spec (4.2), for comparison with the code: the extension
read as the plain substring from the last '.' to the end, with no proviso
about leading dots. -/
def lastDotExt (name : String) : String :=
  match lastDotIdx name.data with
  | none => ""
  | some d => ⟨name.data.drop d⟩

/-- The file test of clean.py 84-85: matches_patterns(file, names) or
os.path.splitext(file)[1] in extensions. -/
def isJunkFile (name : String) (rules : JunkRules) : Bool :=
  matches_patterns name rules.names || rules.extensions.contains (splitext_ext name)

/-- Modelled from the spec (4.2), for comparison with the code: as isJunkFile
but with the spec's last-dot reading of the extension. -/
def isJunkFile_spec (name : String) (rules : JunkRules) : Bool :=
  matches_patterns name rules.names || rules.extensions.contains (lastDotExt name)

/-- The folder test of clean.py 67: folder in junk_files['folders']. -/
def isJunkFolder (name : String) (rules : JunkRules) : Bool :=
  rules.folders.contains name

/-- Acceptance function of the one compiled regex in the rule set,
re.compile(r'\.zcompdump-.*'): .match succeeds iff the name starts with
".zcompdump-" (the dot is escaped and .* accepts any tail, a prefix match
sufficing for re.match). -/
def zcompdumpAccepts (s : String) : Bool :=
  decide (".zcompdump-".data <+: s.data)

/-- self.junk_files as built in CleanerApp.__init__ (clean.py 118-122). -/
def junk_files : JunkRules where
  names := [.exact ".DS_Store", .exact "desktop.ini", .exact "Thumbs.db",
            .exact ".zsh_history", .exact ".viminfo", .exact ".localized",
            .matcher zcompdumpAccepts]
  extensions := [".log", ".tmp", ".cache"]
  folders := ["$RECYCLE.BIN", "Caches", "Logs", "CrashReporter", "tmp", "temp",
              "log", ".Trash", ".fseventsd", ".Spotlight-V100", "Photo Booth Library"]

/-! ## format_size (clean.py 417-423)

The running float value is always (byte count) / 1024^k exactly, so it is
carried as the numerator n with the denominator d = 1024^k; f-string
formatting of such an exact value with :.1f rounds n/d to one decimal place,
ties to even. -/

/-- One-decimal rendering of n / d (d > 0), round half to even, as Python's
f"{value:.1f}" renders the exact value. -/
def fmtOneDecimal (n d : Nat) : String :=
  let x := 10 * n
  let q := x / d
  let r := x % d
  let t := if 2 * r < d then q else if d < 2 * r then q + 1 else if q % 2 = 0 then q else q + 1
  toString (t / 10) ++ "." ++ toString (t % 10)

/-- The for-loop of format_size: the value n/d is compared with 1024.0 at
each unit and divided by 1024.0 when it is not below; when the unit list is
exhausted the line return f"{size:.1f} TB" runs with d = 1024^5. -/
def format_size_loop : List String → Nat → Nat → String
  | [], n, d => fmtOneDecimal n d ++ " TB"
  | u :: us, n, d =>
    if n < 1024 * d then fmtOneDecimal n d ++ " " ++ u
    else format_size_loop us n (d * 1024)

/-- CleanerApp.format_size (clean.py 417-423), on a non-negative byte count. -/
def format_size (size : Nat) : String :=
  format_size_loop ["B", "KB", "MB", "GB", "TB"] size 1

/-! ## The Result Store rows (the Treeview) and toggle_all (clean.py 351-369) -/

/-- One row of the Treeview: values = (select mark, path, size text, modified
text). Rows are inserted with mark a check mark and toggled between a check
mark and a blank. -/
structure TreeRow where
  check : String
  path : String
  size : String
  modified : String
deriving DecidableEq

/-- CleanerApp.toggle_all (clean.py 351-369) restricted to the rows: on an
empty list return at once; otherwise read the first row's mark and write its
opposite into every row. (The heading text and button state it also updates
are presentation, not modelled.) -/
def toggle_all (rows : List TreeRow) : List TreeRow :=
  match rows with
  | [] => rows
  | first :: _ =>
    let all_checked := first.check == "✓"
    let new_state := if all_checked then " " else "✓"
    rows.map (fun r => { r with check := new_state })

/-! ## Starting a scan (clean.py 207-228) -/

/-- The pieces of CleanerApp state that scan_files touches: whether
self.scan_thread is a live thread, whether self.abort_event is set, and the
Treeview rows (the Result Store). -/
structure AppState where
  threadAlive : Bool
  abortSet : Bool
  store : List TreeRow
deriving DecidableEq

/-- CleanerApp.scan_files (clean.py 207-228): if a scan thread is alive the
request returns at once, touching nothing; otherwise the abort event is
cleared, the rows are cleared and a new scan thread is started. -/
def scan_files (s : AppState) : AppState :=
  if s.threadAlive then s
  else { threadAlive := true, abortSet := false, store := [] }

/-! ## Deletion engine (CleanerApp.clean_files, clean.py 267-308)

A requested path is, at deletion time, either missing from the filesystem, a
regular file, or a directory tree; every entry carries whether the one OS
call that removes it (os.remove / os.rmdir on it) would succeed.  Whether the
single bulk shutil.rmtree call succeeds is environment (a race can fail it
even on a fully removable tree), so it is a parameter of a directory target. -/

mutual
inductive DEntry where
  | dfile (removable : Bool)
  | ddir (removable : Bool) (children : DEList)
inductive DEList where
  | dnil : DEList
  | dcons : DEntry → DEList → DEList
end

/-- Outcomes of one path, named as the spec names them. In the code: deleted =
the row is removed from the Treeview (line 305); partiallyDeleted = the
"Could not completely remove directory" status of line 303; failed = the
"Error deleting" status of line 307. -/
inductive Outcome where
  | deleted
  | partiallyDeleted
  | failed
deriving DecidableEq

mutual
/-- The manual bottom-up sweep of clean.py 288-304 on one entry: files are
os.remove'd (skipped on failure), each directory is os.rmdir'd after its own
contents were processed (os.rmdir succeeds iff the directory is now empty and
the call is permitted), deepest entries first because os.walk is given
topdown=False. none = the entry is gone afterwards; some e = what remains. -/
def sweepEntry : DEntry → Option DEntry
  | .dfile r => if r then none else some (.dfile r)
  | .ddir r cs =>
    match sweepList cs with
    | .dnil => if r then none else some (.ddir r .dnil)
    | .dcons e' rest => some (.ddir r (.dcons e' rest))

/-- The sweep over a listing, keeping what survives. -/
def sweepList : DEList → DEList
  | .dnil => .dnil
  | .dcons e es =>
    match sweepEntry e with
    | none => sweepList es
    | some e' => .dcons e' (sweepList es)
end

mutual
/-- Every removal in the tree, the root included, would be permitted. -/
def allRemovable : DEntry → Bool
  | .dfile r => r
  | .ddir r cs => r && allRemovableList cs

def allRemovableList : DEList → Bool
  | .dnil => true
  | .dcons e es => allRemovable e && allRemovableList es
end

/-- What the filesystem holds at one requested path. -/
inductive DelTarget where
  | missing
  | file (removable : Bool)
  | directory (bulkOk : Bool) (entry : DEntry)

/-- The per-path body of clean_files (clean.py 280-304).
For a regular file (os.path.isfile true): os.remove succeeds → the row is
deleted (deleted); it raises → the outer except prints "Error deleting"
(failed).
Otherwise shutil.rmtree is tried; success → deleted.  On failure the
bottom-up sweep runs, then os.rmdir(path): the root entry gone → deleted,
anything left (or the rmdir refused) → "Could not completely remove
directory" (partiallyDeleted).
A missing path takes the directory branch too (os.path.isfile is False):
shutil.rmtree raises FileNotFoundError, os.walk over a missing path yields
nothing, and the final os.rmdir raises FileNotFoundError, landing in the
same "Could not completely remove directory" handler: partiallyDeleted. -/
def deletePath : DelTarget → Outcome
  | .file r => if r then .deleted else .failed
  | .missing => .partiallyDeleted
  | .directory bulkOk e =>
    if bulkOk then .deleted
    else
      match sweepEntry e with
      | none => .deleted
      | some _ => .partiallyDeleted

/-- CleanerApp.clean_files (clean.py 267-308) after the user confirms: the
rows whose mark is the check mark are processed in order, each independently
(every failure handler ends in continue); a row is removed from the Treeview
iff its outcome is deleted.  Result: the outcomes of the selected rows in
order, and the rows still in the Treeview afterwards. -/
def clean_files : List (TreeRow × DelTarget) → List Outcome × List TreeRow
  | [] => ([], [])
  | (row, tgt) :: rest =>
    let others := clean_files rest
    if row.check == "✓" then
      let o := deletePath tgt
      (o :: others.1, if o == Outcome.deleted then others.2 else row :: others.2)
    else (others.1, row :: others.2)

example : splitext_ext "x.log" = ".log" := by decide
example : splitext_ext ".log" = "" := by decide
example : lastDotExt ".log" = ".log" := by decide
example : isJunkFile ".DS_Store" junk_files = true := by decide
example : isJunkFile ".zcompdump-5.9" junk_files = true := by decide
example : format_size 0 = "0.0 B" := by decide
example : format_size 1536 = "1.5 KB" := by decide
example : deletePath (.directory false (.ddir true (.dcons (.dfile false) .dnil))) = .partiallyDeleted := by decide

/-! ## The filesystem seen by the scan (os.walk, os.path.getsize, os.path.getmtime)

A node is a regular file or a directory; a size or mtime of none means the
stat call raises OSError/PermissionError for it.  A directory that is not
readable is one os.walk cannot list: os.walk's default onerror swallows the
error, so such a directory (and everything below it) yields no triple at
all.  Children appear in listing order. -/

mutual
inductive FSNode where
  | file (name : String) (size : Option Nat) (mtime : Option Nat)
  | dir (name : String) (mtime : Option Nat) (readable : Bool) (children : FSList)
inductive FSList where
  | fnil : FSList
  | fcons : FSNode → FSList → FSList
end

def FSNode.name : FSNode → String
  | .file n _ _ => n
  | .dir n _ _ _ => n

def FSNode.mtime : FSNode → Option Nat
  | .file _ _ mt => mt
  | .dir _ mt _ _ => mt

/-- os.path.getsize on a regular file (none = it raises). -/
def FSNode.fsize : FSNode → Option Nat
  | .file _ s _ => s
  | .dir _ _ _ _ => none

def FSNode.isDirNode : FSNode → Bool
  | .file _ _ _ => false
  | .dir _ _ _ _ => true

def FSList.toList : FSList → List FSNode
  | .fnil => []
  | .fcons c cs => c :: FSList.toList cs

/-- os.path.join for the paths os.walk builds. -/
def pathJoin (root name : String) : String := root ++ "/" ++ name

mutual
/-- get_dir_size (clean.py 8-29) on a directory node: os.walk visits every
readable directory below it; every file listed contributes os.path.getsize
(a file whose getsize raises is skipped by the inner except and contributes
nothing); an unreadable directory yields no triple, so nothing below it is
counted, and an unreadable root gives 0.  On a file node the function models
that file's contribution to its directory's total. -/
def get_dir_size : FSNode → Nat
  | .file _ s _ => s.getD 0
  | .dir _ _ r cs => if r then get_dir_size_list cs else 0

def get_dir_size_list : FSList → Nat
  | .fnil => 0
  | .fcons c cs => get_dir_size c + get_dir_size_list cs
end

/-- One triple yielded by os.walk: the directory's path, the subdirectory
nodes of its listing (the dirs list), and the file nodes (the files list). -/
structure Frame where
  path : String
  dirs : List FSNode
  files : List FSNode

mutual
/-- The triples os.walk(p) yields for the tree rooted at this node, top-down:
a file or an unlistable directory yields nothing; a readable directory
yields its own triple and then, in listing order, the triples of each
subdirectory.  ScanThread.run never prunes the dirs list (it iterates a
copy, dirs[:], and never mutates dirs), so every subdirectory is walked. -/
def walkFrames (p : String) : FSNode → List Frame
  | .file _ _ _ => []
  | .dir _ _ r cs =>
    if r then
      ⟨p, (FSList.toList cs).filter FSNode.isDirNode,
          (FSList.toList cs).filter (fun c => !c.isDirNode)⟩ :: walkFramesList p cs
    else []

def walkFramesList (p : String) : FSList → List Frame
  | .fnil => []
  | .fcons c cs => walkFrames (pathJoin p c.name) c ++ walkFramesList p cs
end

/-! ## ScanThread.run (clean.py 50-97)

The messages the thread puts on its queue, in order.  ("file", (path, size,
modified)) is the matched event; the strftime text of the modified time is
abstracted to the raw getmtime value.  The abort event object is modelled by
the function ab: ab k answers the k-th is_set() call of the run. -/

inductive Event where
  | progress (path : String)
  | abort
  | matched (path : String) (size : Nat) (mtime : Nat)
  | done (totalSize : Nat) (count : Nat)
deriving DecidableEq

/-- The thread's mutable state: total_size, file_count, how many is_set()
calls were made, and the events put so far. -/
structure ScanSt where
  total : Nat
  count : Nat
  checks : Nat
  events : List Event

/-- The folder loop (clean.py 64-77): per subdirectory one is_set() check
(true breaks the loop); a junk folder name gets get_dir_size (which cannot
raise) and getmtime (whose raising skips the folder via the except); on
success the matched event is put and the totals grow. -/
def procFolders (rules : JunkRules) (root : String) (ab : Nat → Bool) :
    List FSNode → ScanSt → ScanSt
  | [], st => st
  | d :: rest, st =>
    if ab st.checks then { st with checks := st.checks + 1 }
    else
      let st' := { st with checks := st.checks + 1 }
      if isJunkFolder d.name rules then
        match d.mtime with
        | none => procFolders rules root ab rest st'
        | some mt =>
          procFolders rules root ab rest
            { st' with
              events := st'.events ++ [.matched (pathJoin root d.name) (get_dir_size d) mt],
              total := st'.total + get_dir_size d,
              count := st'.count + 1 }
      else procFolders rules root ab rest st'

/-- The file loop (clean.py 80-94): per file one is_set() check (true breaks
the loop); a junk-matching file gets getsize then getmtime, either raising
skips the file; on success the matched event is put and the totals grow. -/
def procFiles (rules : JunkRules) (root : String) (ab : Nat → Bool) :
    List FSNode → ScanSt → ScanSt
  | [], st => st
  | f :: rest, st =>
    if ab st.checks then { st with checks := st.checks + 1 }
    else
      let st' := { st with checks := st.checks + 1 }
      if isJunkFile f.name rules then
        match f.fsize, f.mtime with
        | some sz, some mt =>
          procFiles rules root ab rest
            { st' with
              events := st'.events ++ [.matched (pathJoin root f.name) sz mt],
              total := st'.total + sz,
              count := st'.count + 1 }
        | _, _ => procFiles rules root ab rest st'
      else procFiles rules root ab rest st'

/-- The walk loop (clean.py 54-94): per triple, first one is_set() check —
true puts the abort message and breaks the walk — then the progress message,
the folder loop, the file loop, the next triple. -/
def procFrames (rules : JunkRules) (ab : Nat → Bool) :
    List Frame → ScanSt → ScanSt
  | [], st => st
  | fr :: rest, st =>
    if ab st.checks then
      { st with checks := st.checks + 1, events := st.events ++ [.abort] }
    else
      let st1 := { st with checks := st.checks + 1,
                           events := st.events ++ [.progress fr.path] }
      let st2 := procFolders rules fr.path ab fr.dirs st1
      let st3 := procFiles rules fr.path ab fr.files st2
      procFrames rules ab rest st3

/-- ScanThread.run (clean.py 50-97): walk the tree from scan_path, then —
whether the walk finished or was broken out of — put ("done", (total_size,
file_count)) (line 97 runs unconditionally). -/
def ScanThread.run (rules : JunkRules) (scan_path : String) (root : FSNode)
    (ab : Nat → Bool) : List Event :=
  let st := procFrames rules ab (walkFrames scan_path root) ⟨0, 0, 0, []⟩
  st.events ++ [.done st.total st.count]

/-- Whether an event is a matched (a "file" message). -/
def isMatched : Event → Bool
  | .matched _ _ _ => true
  | _ => false

/-- Number of matched events in an event list. -/
def countMatched (evs : List Event) : Nat := (evs.filter isMatched).length

/-- Sum of the sizes carried by the matched events of an event list. -/
def sumMatched : List Event → Nat
  | [] => 0
  | .matched _ sz _ :: rest => sz + sumMatched rest
  | _ :: rest => sumMatched rest

/-! ## The spec's scan scenario (spec 8): a root a with a/.DS_Store (5 bytes)
and a junk folder a/Caches holding a/Caches/x.log (7 bytes). -/

def xlogFile : FSNode := .file "x.log" (some 7) (some 40)

def cachesDir : FSNode := .dir "Caches" (some 30) true (.fcons xlogFile .fnil)

def dsStoreFile : FSNode := .file ".DS_Store" (some 5) (some 20)

def scenarioRoot : FSNode :=
  .dir "a" (some 10) true (.fcons dsStoreFile (.fcons cachesDir .fnil))

/-- Cancellation never requested. -/
def neverAbort : Nat → Bool := fun _ => false

example : walkFrames "a" scenarioRoot =
    [⟨"a", [cachesDir], [dsStoreFile]⟩, ⟨"a/Caches", [], [xlogFile]⟩] := rfl


/-! ## Structure lemmas about the event stream -/

theorem sumMatched_append (a b : List Event) :
    sumMatched (a ++ b) = sumMatched a + sumMatched b := by
  induction a with
  | nil => simp [sumMatched]
  | cons e rest ih =>
    cases e <;> simp [sumMatched, ih, Nat.add_assoc]

theorem countMatched_append (a b : List Event) :
    countMatched (a ++ b) = countMatched a + countMatched b := by
  simp [countMatched, List.filter_append]

theorem countMatched_nil : countMatched [] = 0 := rfl

theorem isMatched_ne_abort (e : Event) : isMatched e = true → e ≠ Event.abort := by
  cases e <;> simp [isMatched]

theorem sumMatched_cons_matched (delta : List Event) (p : String) (sz mt : Nat) :
    sumMatched (Event.matched p sz mt :: delta) = sz + sumMatched delta := by
  simp [sumMatched]

theorem countMatched_cons_matched (delta : List Event) (p : String) (sz mt : Nat) :
    countMatched (Event.matched p sz mt :: delta) = countMatched delta + 1 := by
  simp [countMatched, List.filter_cons, isMatched]


theorem procFolders_delta (rules : JunkRules) (root : String) (ab : Nat → Bool) :
    ∀ (ds : List FSNode) (st : ScanSt), ∃ delta,
      (procFolders rules root ab ds st).events = st.events ++ delta ∧
      (∀ e ∈ delta, isMatched e = true) ∧
      (procFolders rules root ab ds st).total = st.total + sumMatched delta ∧
      (procFolders rules root ab ds st).count = st.count + countMatched delta
  | [], st => by
    refine ⟨[], ?_, ?_, ?_, ?_⟩ <;> simp [procFolders, sumMatched, countMatched]
  | d :: rest, st => by
    cases hab : ab st.checks with
    | true =>
      refine ⟨[], ?_, ?_, ?_, ?_⟩ <;> simp [procFolders, hab, sumMatched, countMatched]
    | false =>
      cases hj : isJunkFolder d.name rules with
      | false =>
        obtain ⟨delta, h1, h2, h3, h4⟩ :=
          procFolders_delta rules root ab rest { st with checks := st.checks + 1 }
        have hstep : procFolders rules root ab (d :: rest) st =
            procFolders rules root ab rest { st with checks := st.checks + 1 } := by
          simp [procFolders, hab, hj]
        exact ⟨delta, by rw [hstep]; exact h1, h2, by rw [hstep]; exact h3,
               by rw [hstep]; exact h4⟩
      | true =>
        cases hmt : d.mtime with
        | none =>
          obtain ⟨delta, h1, h2, h3, h4⟩ :=
            procFolders_delta rules root ab rest { st with checks := st.checks + 1 }
          have hstep : procFolders rules root ab (d :: rest) st =
              procFolders rules root ab rest { st with checks := st.checks + 1 } := by
            simp [procFolders, hab, hj, hmt]
          exact ⟨delta, by rw [hstep]; exact h1, h2, by rw [hstep]; exact h3,
                 by rw [hstep]; exact h4⟩
        | some mt =>
          obtain ⟨delta, h1, h2, h3, h4⟩ :=
            procFolders_delta rules root ab rest
              { st with
                checks := st.checks + 1
                events := st.events ++ [.matched (pathJoin root d.name) (get_dir_size d) mt]
                total := st.total + get_dir_size d
                count := st.count + 1 }
          have hstep : procFolders rules root ab (d :: rest) st =
              procFolders rules root ab rest
                { st with
                  checks := st.checks + 1
                  events := st.events ++ [.matched (pathJoin root d.name) (get_dir_size d) mt]
                  total := st.total + get_dir_size d
                  count := st.count + 1 } := by
            simp [procFolders, hab, hj, hmt]
          refine ⟨.matched (pathJoin root d.name) (get_dir_size d) mt :: delta, ?_, ?_, ?_, ?_⟩
          · rw [hstep, h1]; simp
          · intro e he
            rcases List.mem_cons.mp he with rfl | he
            · rfl
            · exact h2 e he
          · rw [hstep, h3, sumMatched_cons_matched delta]
            simp
            omega
          · rw [hstep, h4, countMatched_cons_matched]
            simp
            omega

theorem procFiles_delta (rules : JunkRules) (root : String) (ab : Nat → Bool) :
    ∀ (fs : List FSNode) (st : ScanSt), ∃ delta,
      (procFiles rules root ab fs st).events = st.events ++ delta ∧
      (∀ e ∈ delta, isMatched e = true) ∧
      (procFiles rules root ab fs st).total = st.total + sumMatched delta ∧
      (procFiles rules root ab fs st).count = st.count + countMatched delta
  | [], st => by
    refine ⟨[], ?_, ?_, ?_, ?_⟩ <;> simp [procFiles, sumMatched, countMatched]
  | f :: rest, st => by
    cases hab : ab st.checks with
    | true =>
      refine ⟨[], ?_, ?_, ?_, ?_⟩ <;> simp [procFiles, hab, sumMatched, countMatched]
    | false =>
      cases hj : isJunkFile f.name rules with
      | false =>
        obtain ⟨delta, h1, h2, h3, h4⟩ :=
          procFiles_delta rules root ab rest { st with checks := st.checks + 1 }
        have hstep : procFiles rules root ab (f :: rest) st =
            procFiles rules root ab rest { st with checks := st.checks + 1 } := by
          simp [procFiles, hab, hj]
        exact ⟨delta, by rw [hstep]; exact h1, h2, by rw [hstep]; exact h3,
               by rw [hstep]; exact h4⟩
      | true =>
        cases hsz : f.fsize with
        | none =>
          obtain ⟨delta, h1, h2, h3, h4⟩ :=
            procFiles_delta rules root ab rest { st with checks := st.checks + 1 }
          have hstep : procFiles rules root ab (f :: rest) st =
              procFiles rules root ab rest { st with checks := st.checks + 1 } := by
            simp [procFiles, hab, hj, hsz]
          exact ⟨delta, by rw [hstep]; exact h1, h2, by rw [hstep]; exact h3,
                 by rw [hstep]; exact h4⟩
        | some sz =>
          cases hmt : f.mtime with
          | none =>
            obtain ⟨delta, h1, h2, h3, h4⟩ :=
              procFiles_delta rules root ab rest { st with checks := st.checks + 1 }
            have hstep : procFiles rules root ab (f :: rest) st =
                procFiles rules root ab rest { st with checks := st.checks + 1 } := by
              simp [procFiles, hab, hj, hsz, hmt]
            exact ⟨delta, by rw [hstep]; exact h1, h2, by rw [hstep]; exact h3,
                   by rw [hstep]; exact h4⟩
          | some mt =>
            obtain ⟨delta, h1, h2, h3, h4⟩ :=
              procFiles_delta rules root ab rest
                { st with
                  checks := st.checks + 1
                  events := st.events ++ [.matched (pathJoin root f.name) sz mt]
                  total := st.total + sz
                  count := st.count + 1 }
            have hstep : procFiles rules root ab (f :: rest) st =
                procFiles rules root ab rest
                  { st with
                    checks := st.checks + 1
                    events := st.events ++ [.matched (pathJoin root f.name) sz mt]
                    total := st.total + sz
                    count := st.count + 1 } := by
              simp [procFiles, hab, hj, hsz, hmt]
            refine ⟨.matched (pathJoin root f.name) sz mt :: delta, ?_, ?_, ?_, ?_⟩
            · rw [hstep, h1]; simp
            · intro e he
              rcases List.mem_cons.mp he with rfl | he
              · rfl
              · exact h2 e he
            · rw [hstep, h3, sumMatched_cons_matched delta]
              simp
              omega
            · rw [hstep, h4, countMatched_cons_matched]
              simp
              omega

theorem sumMatched_cons_progress (p : String) (l : List Event) :
    sumMatched (Event.progress p :: l) = sumMatched l := rfl

theorem countMatched_cons_progress (p : String) (l : List Event) :
    countMatched (Event.progress p :: l) = countMatched l := by
  simp [countMatched, List.filter_cons, isMatched]

theorem procBody_delta (rules : JunkRules) (p : String) (ab : Nat → Bool)
    (ds fs : List FSNode) (st : ScanSt) : ∃ delta,
      (procFiles rules p ab fs (procFolders rules p ab ds st)).events = st.events ++ delta ∧
      (∀ e ∈ delta, isMatched e = true) ∧
      (procFiles rules p ab fs (procFolders rules p ab ds st)).total = st.total + sumMatched delta ∧
      (procFiles rules p ab fs (procFolders rules p ab ds st)).count = st.count + countMatched delta := by
  obtain ⟨dd, hd1, hd2, hd3, hd4⟩ := procFolders_delta rules p ab ds st
  obtain ⟨df, hf1, hf2, hf3, hf4⟩ := procFiles_delta rules p ab fs (procFolders rules p ab ds st)
  refine ⟨dd ++ df, ?_, ?_, ?_, ?_⟩
  · rw [hf1, hd1]; simp
  · intro e he
    rcases List.mem_append.mp he with h | h
    · exact hd2 e h
    · exact hf2 e h
  · rw [hf3, hd3, sumMatched_append]; omega
  · rw [hf4, hd4, countMatched_append]; omega

theorem procFrames_delta (rules : JunkRules) (ab : Nat → Bool) :
    ∀ (frames : List Frame) (st : ScanSt), ∃ delta,
      (procFrames rules ab frames st).events = st.events ++ delta ∧
      (procFrames rules ab frames st).total = st.total + sumMatched delta ∧
      (procFrames rules ab frames st).count = st.count + countMatched delta ∧
      ((∀ e ∈ delta, e ≠ Event.abort) ∨
        ∃ d', delta = d' ++ [Event.abort] ∧ ∀ e ∈ d', e ≠ Event.abort)
  | [], st => by
    refine ⟨[], ?_, ?_, ?_, Or.inl ?_⟩ <;> simp [procFrames, sumMatched, countMatched]
  | fr :: rest, st => by
    cases hab : ab st.checks with
    | true =>
      refine ⟨[.abort], ?_, ?_, ?_, Or.inr ⟨[], rfl, by simp⟩⟩ <;>
        simp [procFrames, hab, sumMatched, countMatched, isMatched]
    | false =>
      obtain ⟨db, hb1, hb2, hb3, hb4⟩ := procBody_delta rules fr.path ab fr.dirs fr.files
        { st with
          checks := st.checks + 1
          events := st.events ++ [.progress fr.path] }
      obtain ⟨dr, hr1, hr3, hr4, hr5⟩ := procFrames_delta rules ab rest
        (procFiles rules fr.path ab fr.files (procFolders rules fr.path ab fr.dirs
          { st with
            checks := st.checks + 1
            events := st.events ++ [.progress fr.path] }))
      have hstep : procFrames rules ab (fr :: rest) st =
          procFrames rules ab rest
            (procFiles rules fr.path ab fr.files (procFolders rules fr.path ab fr.dirs
              { st with
                checks := st.checks + 1
                events := st.events ++ [.progress fr.path] })) := by
        simp [procFrames, hab]
      refine ⟨.progress fr.path :: (db ++ dr), ?_, ?_, ?_, ?_⟩
      · rw [hstep, hr1, hb1]; simp
      · rw [hstep, hr3, hb3, sumMatched_cons_progress, sumMatched_append]
        show st.total + sumMatched db + sumMatched dr =
          st.total + (sumMatched db + sumMatched dr)
        omega
      · rw [hstep, hr4, hb4, countMatched_cons_progress, countMatched_append]
        show st.count + countMatched db + countMatched dr =
          st.count + (countMatched db + countMatched dr)
        omega
      · rcases hr5 with hnone | ⟨d', hsplit, hfree⟩
        · refine Or.inl ?_
          intro e he
          rcases List.mem_cons.mp he with rfl | he
          · simp
          · rcases List.mem_append.mp he with h | h
            · exact isMatched_ne_abort e (hb2 e h)
            · exact hnone e h
        · refine Or.inr ⟨.progress fr.path :: (db ++ d'), ?_, ?_⟩
          · rw [hsplit]; simp
          · intro e he
            rcases List.mem_cons.mp he with rfl | he
            · simp
            · rcases List.mem_append.mp he with h | h
              · exact isMatched_ne_abort e (hb2 e h)
              · exact hfree e h

/-! ## Further lemmas: the matcher and the deletion sweep -/

theorem matches_patterns_iff (name : String) (ps : List Pattern) :
    matches_patterns name ps = true ↔ ∃ p ∈ ps, patternAccepts p name = true := by
  induction ps with
  | nil => simp [matches_patterns]
  | cons p rest ih => simp [matches_patterns, Bool.or_eq_true, ih]

mutual
theorem sweep_of_allRemovable : ∀ e : DEntry, allRemovable e = true → sweepEntry e = none
  | .dfile r, h => by
    simp only [allRemovable] at h
    simp [sweepEntry, h]
  | .ddir r cs, h => by
    simp only [allRemovable, Bool.and_eq_true] at h
    have hcs := sweepList_of_allRemovable cs h.2
    simp [sweepEntry, hcs, h.1]

theorem sweepList_of_allRemovable : ∀ cs : DEList, allRemovableList cs = true → sweepList cs = .dnil
  | .dnil, _ => rfl
  | .dcons e es, h => by
    simp only [allRemovableList, Bool.and_eq_true] at h
    have h1 := sweep_of_allRemovable e h.1
    have h2 := sweepList_of_allRemovable es h.2
    simp [sweepList, h1, h2]
end

example (l : List String) (a : String) : l.contains a = true ↔ a ∈ l := by simp

/-! ## Concrete rows used by the deletion theorems -/

def rowA : TreeRow := ⟨"✓", "/Users/t/.DS_Store", "5.0 B", "2025-01-01 10:00:00"⟩

def rowB : TreeRow := ⟨"✓", "/Users/t/vanished", "1.0 KB", "2025-01-02 10:00:00"⟩

/-! ## The claims -/

/-- C1, counterexample: in the spec's own scenario (a/.DS_Store plus the junk
folder a/Caches holding a/Caches/x.log) the scan emits a matched event for
a/Caches/x.log as well, and the number of matched events is three, not two:
the walk loop iterates dirs[:] but never prunes dirs, so os.walk descends
into the matched junk folder. -/
theorem C1_counterexample :
    Event.matched "a/Caches/x.log" 7 40 ∈
      ScanThread.run junk_files "a" scenarioRoot neverAbort ∧
    countMatched (ScanThread.run junk_files "a" scenarioRoot neverAbort) = 3 := by
  decide

/-- C1, as amended: a junk folder is emitted as a single match carrying its
recursive size and modification time, but the traversal descends into it all
the same, so junk-matching contents are additionally emitted individually:
the scenario's full event stream is progress a, matched a/Caches (size 7 =
the recursive size of x.log), matched a/.DS_Store, progress a/Caches,
matched a/Caches/x.log, done(19, 3). -/
theorem C1_scan_scenario :
    ScanThread.run junk_files "a" scenarioRoot neverAbort =
      [.progress "a", .matched "a/Caches" 7 30, .matched "a/.DS_Store" 5 20,
       .progress "a/Caches", .matched "a/Caches/x.log" 7 40, .done 19 3] := by
  decide

/-- C2, counterexample: with cancellation already requested, the run puts the
abort message and then still puts a done message (clean.py line 97 runs
unconditionally after the walk loop), so a done event follows the aborted
event. -/
theorem C2_counterexample :
    ScanThread.run junk_files "a" scenarioRoot (fun _ => true) =
      [Event.abort, Event.done 0 0] := by
  decide

/-- C2, as amended: the terminal event of every scan is done, not
aborted: for any rule set, root and cancellation behaviour the event stream
is pre ++ [done t c], and an aborted event can only stand immediately before
that final done (the walk stops once it is put, but the unconditional done
still follows). -/
theorem C2_terminal_event (rules : JunkRules) (p : String) (root : FSNode)
    (ab : Nat → Bool) :
    ∃ pre t c, ScanThread.run rules p root ab = pre ++ [Event.done t c] ∧
      Event.abort ∉ pre.dropLast := by
  obtain ⟨delta, h1, _, _, h5⟩ :=
    procFrames_delta rules ab (walkFrames p root) ⟨0, 0, 0, []⟩
  refine ⟨delta,
    (procFrames rules ab (walkFrames p root) ⟨0, 0, 0, []⟩).total,
    (procFrames rules ab (walkFrames p root) ⟨0, 0, 0, []⟩).count, ?_, ?_⟩
  · simp only [ScanThread.run]
    rw [h1]
    simp
  · rcases h5 with hnone | ⟨d', hsplit, hfree⟩
    · intro hmem
      exact hnone _ (List.Sublist.subset (List.dropLast_sublist delta) hmem) rfl
    · rw [hsplit]
      simp only [List.dropLast_concat]
      intro hmem
      exact hfree _ hmem rfl

/-- C3, counterexample: format_size(1024^5) is "1.0 TB", not "1024.0 TB": at
the TB step the value 1024.0 is not below 1024.0, so it is divided once more
before the final return line renders it. -/
theorem C3_counterexample :
    format_size (1024 ^ 5) = "1.0 TB" ∧ "1.0 TB" ≠ "1024.0 TB" := by
  constructor
  · decide
  · decide

/-- C3, as amended: format_size renders 1024-based units with one decimal
place and caps the unit at TB — format_size(0) = "0.0 B", format_size(1536)
= "1.5 KB", format_size(1024^4) = "1.0 TB" — but for a tebibyte times 1024
or more the loop has divided by 1024 five times, so the number shown is the
byte count divided by 1024^5 under the TB label: format_size(1024^5) =
"1.0 TB" and format_size(2 * 1024^5) = "2.0 TB" (the numeric part wraps at
1024^5 instead of continuing to grow as 1024.0, 2048.0, ...). -/
theorem C3_format_size_units :
    format_size 0 = "0.0 B" ∧
    format_size 1536 = "1.5 KB" ∧
    format_size (1024 ^ 4) = "1.0 TB" ∧
    format_size (1024 ^ 4 * 3 / 2) = "1.5 TB" ∧
    format_size (1024 ^ 5) = "1.0 TB" ∧
    format_size (2 * 1024 ^ 5) = "2.0 TB" := by
  refine ⟨?_, ?_, ?_, ?_, ?_, ?_⟩ <;> decide

/-- C4, counterexample: deleting a path that does not exist yields the
partiallyDeleted outcome (the "Could not completely remove directory" status
of line 303), not failed: os.path.isfile is False for it, so it takes the
directory branch, shutil.rmtree and the fallback's final os.rmdir both raise,
and the inner handler catches the rmdir error. -/
theorem C4_counterexample :
    deletePath DelTarget.missing = Outcome.partiallyDeleted ∧
    Outcome.partiallyDeleted ≠ Outcome.failed := by
  constructor
  · rfl
  · decide

/-- C4, as amended: an existing regular file whose direct removal succeeds
gives deleted and its row leaves the store; a path that does not exist at
all gives partiallyDeleted (not failed, and not deleted) and its row stays. -/
theorem C4_delete_outcomes :
    deletePath (DelTarget.file true) = Outcome.deleted ∧
    deletePath DelTarget.missing = Outcome.partiallyDeleted ∧
    clean_files [(rowA, DelTarget.file true)] = ([Outcome.deleted], []) ∧
    clean_files [(rowB, DelTarget.missing)] = ([Outcome.partiallyDeleted], [rowB]) := by
  refine ⟨rfl, rfl, ?_, ?_⟩ <;> decide

/-- C5: for a directory whose bulk shutil.rmtree attempt failed, the
bottom-up fallback sweep decides the outcome: if it clears the tree the
outcome is deleted (in particular whenever every removal is permitted, even
though the bulk attempt failed), otherwise partiallyDeleted; a selected
row's outcome is always produced and appended ahead of the remaining rows'
outcomes (a failure never aborts the batch), and a selected row whose
outcome is not deleted stays in the Result Store. -/
theorem C5_dir_fallback (e : DEntry) (row : TreeRow) (tgt : DelTarget)
    (rest : List (TreeRow × DelTarget)) :
    (sweepEntry e = none → deletePath (DelTarget.directory false e) = Outcome.deleted) ∧
    (sweepEntry e ≠ none →
      deletePath (DelTarget.directory false e) = Outcome.partiallyDeleted) ∧
    (allRemovable e = true → deletePath (DelTarget.directory false e) = Outcome.deleted) ∧
    (row.check = "✓" →
      (clean_files ((row, tgt) :: rest)).1 = deletePath tgt :: (clean_files rest).1) ∧
    (row.check = "✓" → deletePath tgt ≠ Outcome.deleted →
      (clean_files ((row, tgt) :: rest)).2 = row :: (clean_files rest).2) := by
  refine ⟨?_, ?_, ?_, ?_, ?_⟩
  · intro h
    simp [deletePath, h]
  · intro h
    cases hs : sweepEntry e with
    | none => exact absurd hs h
    | some x => simp [deletePath, hs]
  · intro h
    simp [deletePath, sweep_of_allRemovable e h]
  · intro h
    simp [clean_files, h]
  · intro h ho
    simp [clean_files, h, ho]

/-- C5, witness: a directory of one removable file under a removable root,
with the bulk attempt failing, comes out deleted; a missing target after a
selected row is still processed and a non-deleted row stays. -/
theorem C5_dir_fallback_witness :
    (sweepEntry (.ddir true (.dcons (.dfile true) .dnil)) = none →
      deletePath (DelTarget.directory false (.ddir true (.dcons (.dfile true) .dnil))) =
        Outcome.deleted) ∧
    (sweepEntry (.ddir true (.dcons (.dfile true) .dnil)) ≠ none →
      deletePath (DelTarget.directory false (.ddir true (.dcons (.dfile true) .dnil))) =
        Outcome.partiallyDeleted) ∧
    (allRemovable (.ddir true (.dcons (.dfile true) .dnil)) = true →
      deletePath (DelTarget.directory false (.ddir true (.dcons (.dfile true) .dnil))) =
        Outcome.deleted) ∧
    (rowB.check = "✓" →
      (clean_files ((rowB, DelTarget.missing) :: [(rowA, DelTarget.file true)])).1 =
        deletePath DelTarget.missing :: (clean_files [(rowA, DelTarget.file true)]).1) ∧
    (rowB.check = "✓" → deletePath DelTarget.missing ≠ Outcome.deleted →
      (clean_files ((rowB, DelTarget.missing) :: [(rowA, DelTarget.file true)])).2 =
        rowB :: (clean_files [(rowA, DelTarget.file true)]).2) :=
  C5_dir_fallback (.ddir true (.dcons (.dfile true) .dnil)) rowB DelTarget.missing
    [(rowA, DelTarget.file true)]

/-- C6: a scan that runs with cancellation never requested ends in a done
event whose total is the sum of the sizes of all matched events it emitted
and whose count is the number of matched events (files whose getsize or
getmtime raised were skipped before the event or the totals were touched). -/
theorem C6_done_totals (rules : JunkRules) (p : String) (root : FSNode) :
    ∃ pre, ScanThread.run rules p root neverAbort =
      pre ++ [Event.done (sumMatched pre) (countMatched pre)] := by
  obtain ⟨delta, h1, h3, h4, -⟩ :=
    procFrames_delta rules neverAbort (walkFrames p root) ⟨0, 0, 0, []⟩
  refine ⟨delta, ?_⟩
  simp only [ScanThread.run]
  rw [h1, h3, h4]
  simp [sumMatched, countMatched]

/-- C7, counterexample: a file named ".log" is junk by the spec's reading of
the extension (the substring from the last dot is ".log", a member of
rules.extensions) but not junk to the code: os.path.splitext treats the
leading dot as part of a dotfile's stem and returns an empty extension. -/
theorem C7_counterexample :
    isJunkFile_spec ".log" junk_files = true ∧
    isJunkFile ".log" junk_files = false := by
  constructor
  · decide
  · decide

/-- C7, as amended: isJunkFile(name, rules) is true iff some entry of
rules.names accepts the name (an exact entry by equality, a pattern entry by
its anchored match), or the splitext extension of the name is a member of
rules.extensions — where the splitext extension is the substring from the
last '.' provided some non-dot character stands before that dot, and empty
otherwise (leading dots of a dotfile open no extension); and
isJunkFolder(name, rules) is true iff name is exactly a member of
rules.folders. -/
theorem C7_matcher (name : String) (rules : JunkRules) :
    (isJunkFile name rules = true ↔
      (∃ p ∈ rules.names, patternAccepts p name = true) ∨
        splitext_ext name ∈ rules.extensions) ∧
    (isJunkFolder name rules = true ↔ name ∈ rules.folders) ∧
    splitext_ext name = (if hasStem name then lastDotExt name else "") := by
  refine ⟨?_, ?_, ?_⟩
  · rw [isJunkFile, Bool.or_eq_true, matches_patterns_iff]
    simp
  · rw [isJunkFolder]
    simp
  · cases h : lastDotIdx name.data with
    | none => simp [splitext_ext, hasStem, h]
    | some d =>
      by_cases hs : (name.data.take d).any (fun c => c != '.')
      · simp [splitext_ext, lastDotExt, hasStem, h, hs]
      · simp [splitext_ext, lastDotExt, hasStem, h, hs]

/-- C8: get_dir_size is a total function into the natural numbers: an
unlistable root contributes 0 rather than an error, a file whose getsize
raises contributes 0 to its directory's total (dropping it changes nothing),
and the result is never negative. -/
theorem C8_get_dir_size (n : String) (mt : Option Nat) (cs : FSList)
    (f : String) (fmt : Option Nat) :
    get_dir_size (.dir n mt false cs) = 0 ∧
    get_dir_size (.dir n mt true (.fcons (.file f none fmt) cs)) =
      get_dir_size (.dir n mt true cs) ∧
    0 ≤ get_dir_size (.dir n mt true cs) := by
  refine ⟨rfl, ?_, Nat.zero_le _⟩
  simp [get_dir_size, get_dir_size_list]

/-- C9: requesting a scan while the scan thread is alive (running or still
winding down after an abort) is a no-op that leaves the whole application
state — thread, cancellation signal, Result Store — unchanged; only when no
scan thread is alive does the request start one, clearing the signal and the
store. -/
theorem C9_single_scan (s : AppState) :
    (s.threadAlive = true → scan_files s = s) ∧
    (s.threadAlive = false →
      scan_files s = { threadAlive := true, abortSet := false, store := [] }) := by
  constructor
  · intro h
    simp [scan_files, h]
  · intro h
    simp [scan_files, h]

/-- C9, witness: a live-thread state is returned unchanged, and a dead-thread
state starts a fresh scan. -/
theorem C9_single_scan_witness :
    ((AppState.mk true true [rowA]).threadAlive = true →
      scan_files (AppState.mk true true [rowA]) = AppState.mk true true [rowA]) ∧
    ((AppState.mk true true [rowA]).threadAlive = false →
      scan_files (AppState.mk true true [rowA]) =
        { threadAlive := true, abortSet := false, store := [] }) :=
  C9_single_scan (AppState.mk true true [rowA])

/-- C10: the header toggle is the identity on an empty store, and on a
non-empty store it writes into every row the opposite of the first row's
mark: every row of the result is selected exactly when the first row was not
selected before the toggle. -/
theorem C10_toggle_all (first : TreeRow) (rest : List TreeRow) :
    toggle_all [] = [] ∧
    toggle_all (first :: rest) =
      (first :: rest).map
        (fun r => { r with check := if first.check == "✓" then " " else "✓" }) ∧
    ∀ r ∈ toggle_all (first :: rest), (r.check == "✓") = !(first.check == "✓") := by
  refine ⟨rfl, rfl, ?_⟩
  intro r hr
  simp only [toggle_all, List.mem_map] at hr
  obtain ⟨x, hx, rfl⟩ := hr
  cases h : first.check == "✓" <;> simp [h]
